import Mathlib

/-!
Shallow embedding of the `checklist` crate (src/value.rs, src/check.rs,
src/commit.rs): a value-validation engine built from typed values, rules
(`Checker`), a severity-remapping wrapper (`CheckerMode`), a rule composer
(`Flatten`), and a field-name registry (`CheckList`).

Modelling conventions:
* Rust `Result<A, E>` becomes `Except E A`.
* A Rust computation that may panic (`unwrap` on `None`/empty) is modelled
  with an outer `Option`: `none` means the panic is reached.
* `f64` values are modelled as exact rationals `ℚ`; the only numeric strings
  the crate ever builds come from `u32`/`i32` formatting, on which `f64`
  arithmetic and comparison are exact, so this abstraction is faithful on
  every reachable value.
* Trait `Checker` becomes an explicit dictionary `CheckerImpl α` of the two
  trait methods, mirroring Rust's generic dispatch.
-/

/-! ## src/value.rs -/

/-- `ValueKind` from value.rs: tag of a `Value` (`Number` or `Literal`). -/
inductive ValueKind where
  | Number
  | Literal
deriving DecidableEq, Repr

/-- `Value` from value.rs: a textual payload `inner` plus its `kind` tag. -/
structure Value where
  inner : String
  kind : ValueKind
deriving DecidableEq, Repr

/-- `Value::is_kind_of`. -/
def Value.is_kind_of (v : Value) (k : ValueKind) : Bool :=
  v.kind == k

/-- `ToString for Value`: returns the inner text. -/
def Value.to_string (v : Value) : String :=
  v.inner

/-- Decimal digit characters of `n`, most significant first, fuelled so the
kernel can evaluate it.  Models Rust's `u32::to_string` digit output. -/
def natDigitsAux : Nat → Nat → List Char
  | 0, _ => []
  | fuel + 1, n =>
    if n < 10 then [Char.ofNat (48 + n)]
    else natDigitsAux fuel (n / 10) ++ [Char.ofNat (48 + n % 10)]

/-- Decimal rendering of a natural number (`"0"` for zero, no sign). -/
def natDigits (n : Nat) : List Char :=
  natDigitsAux (n + 1) n

/-- `From<u32> for Value`: decimal text, `Number` tag. -/
def Value.ofU32 (n : Nat) : Value :=
  { inner := String.mk (natDigits n), kind := ValueKind.Number }

/-- `From<i32> for Value`: decimal text with a `-` sign when negative,
`Number` tag. -/
def Value.ofI32 (n : Int) : Value :=
  { inner :=
      if n < 0 then String.mk ('-' :: natDigits n.natAbs)
      else String.mk (natDigits n.toNat),
    kind := ValueKind.Number }

/-- `From<&str> for Value`: text unchanged, `Literal` tag. -/
def Value.ofStr (s : String) : Value :=
  { inner := s, kind := ValueKind.Literal }

/-- The `Value`s obtainable through the crate's public constructors
(`From<u32>`, `From<i32>`, `From<&str>`); the struct fields are private, so
every value in existence arises this way. -/
inductive Value.Reachable : Value → Prop where
  | ofU32 (n : Nat) : Value.Reachable (Value.ofU32 n)
  | ofI32 (n : Int) : Value.Reachable (Value.ofI32 n)
  | ofStr (s : String) : Value.Reachable (Value.ofStr s)

/-- Numeric value of a digit character. -/
def digitVal (c : Char) : Nat :=
  c.toNat - 48

/-- Value of a most-significant-first digit string. -/
def digitsToNat (l : List Char) : Nat :=
  l.foldl (fun a c => a * 10 + digitVal c) 0

/-- Strip an optional leading sign, reporting whether it was `-`. -/
def splitSign (l : List Char) : Bool × List Char :=
  match l with
  | [] => (false, [])
  | c :: r => if c = '-' then (true, r) else if c = '+' then (false, r) else (false, l)

/-- Model of Rust's `str::parse::<f64>` on the decimal fragment of its
grammar (optional sign, integer digits, optional fractional digits), read as
an exact rational.  Exponent/`inf`/`NaN` forms are not modelled; no string
the crate constructs uses them.  `none` means the parse fails. -/
def parseDecimal (s : String) : Option ℚ :=
  let p := splitSign s.data
  let body := p.2
  let ip := body.takeWhile Char.isDigit
  let rest := body.dropWhile Char.isDigit
  let mag : Option ℚ :=
    match rest with
    | [] => if ip = [] then none else some (digitsToNat ip : ℚ)
    | c :: fp =>
      if c = '.' then
        if fp.all Char.isDigit && !(ip = [] && fp = []) then
          some ((digitsToNat ip : ℚ) + (digitsToNat fp : ℚ) / (10 : ℚ) ^ fp.length)
        else none
      else none
  mag.map (fun m => if p.1 then -m else m)

/-- `TryFrom<&Value> for f64`: parse the inner text, ignoring the tag.  The
`Err` payload (a parse-error message) is irrelevant to every caller, so the
failure case is collapsed to `none`. -/
def Value.try_to_f64 (v : Value) : Option ℚ :=
  parseDecimal v.inner

/-! ## src/check.rs : Notice and its ordering -/

/-- `Notice` from check.rs: the three-state verdict. -/
inductive Notice where
  | Clear
  | Attention (msg : String)
  | Error (msg : String)
deriving DecidableEq, Repr

/-- `PartialOrd/Ord for Notice`: the hand-written comparison, arm for arm
(the final catch-all pairs two `Attention`s or two `Error`s). -/
def Notice.cmp : Notice → Notice → Ordering
  | Notice.Clear, Notice.Clear => Ordering.eq
  | Notice.Clear, _ => Ordering.lt
  | _, Notice.Clear => Ordering.gt
  | Notice.Error _, Notice.Attention _ => Ordering.gt
  | Notice.Attention _, Notice.Error _ => Ordering.lt
  | _, _ => Ordering.eq

/-- `a ≤ b` in the `Ord for Notice` sense: comparing does not say `Greater`.
This is the order `Vec::sort` consults. -/
def Notice.le (a b : Notice) : Prop :=
  Notice.cmp a b ≠ Ordering.gt

instance : DecidableRel Notice.le := fun a b => by
  unfold Notice.le; infer_instance

/-- Severity rank of a verdict (spec §3: Clear < Attention < Error). -/
def Notice.severity : Notice → Nat
  | Notice.Clear => 0
  | Notice.Attention _ => 1
  | Notice.Error _ => 2

theorem Notice.cmp_eq_compare_severity (a b : Notice) :
    Notice.cmp a b = compare a.severity b.severity := by
  cases a <;> cases b <;> simp [Notice.cmp, Notice.severity, compare, compareOfLessAndEq]

theorem Notice.le_iff_severity (a b : Notice) :
    Notice.le a b ↔ a.severity ≤ b.severity := by
  cases a <;> cases b <;>
    simp [Notice.le, Notice.cmp, Notice.severity]

instance : IsTotal Notice Notice.le :=
  ⟨fun a b => by
    rw [Notice.le_iff_severity, Notice.le_iff_severity]; omega⟩

instance : IsTrans Notice Notice.le :=
  ⟨fun a b c hab hbc => by
    rw [Notice.le_iff_severity] at *; omega⟩

/-! ## src/check.rs : the Checker trait and its implementations -/

/-- `CheckError` from check.rs. -/
inductive CheckError where
  | InvalidKind
deriving DecidableEq, Repr

/-- `FlattenError` from check.rs. -/
inductive FlattenError where
  | InvalidKind
deriving DecidableEq, Repr

/-- A boxed `dyn Checker` (the payload of `Checkers::Custom`): the two trait
methods as plain functions.  `none` in a result models a panic in the
underlying implementation. -/
structure DynChecker where
  check : Value → Option (Except CheckError Notice)
  expecting : Option (List ValueKind)

/-- Dictionary for the `Checker` trait: `check` and `expecting` for an
implementing type `α`.  `none` models a panic. -/
structure CheckerImpl (α : Type) where
  check : α → Value → Option (Except CheckError Notice)
  expecting : α → Option (List ValueKind)

/-- `CheckerMode` from check.rs: the severity wrapper. -/
inductive CheckerMode (α : Type) where
  | Attention (c : α)
  | Error (c : α)

/-- `impl Checker for CheckerMode<T>`: `check` matches on the inner verdict
(the `?` on the inner `check` propagates `Err`), `expecting` delegates. -/
def CheckerModeImpl {α : Type} (I : CheckerImpl α) : CheckerImpl (CheckerMode α) where
  check := fun m v =>
    match m with
    | CheckerMode.Attention c =>
      (I.check c v).map (Except.map (fun n =>
        match n with
        | Notice.Clear => Notice.Clear
        | Notice.Attention msg => Notice.Attention msg
        | Notice.Error msg => Notice.Error msg))
    | CheckerMode.Error c =>
      (I.check c v).map (Except.map (fun n =>
        match n with
        | Notice.Clear => Notice.Clear
        | Notice.Attention msg => Notice.Error msg
        | Notice.Error msg => Notice.Error msg))
  expecting := fun m =>
    match m with
    | CheckerMode.Attention c => I.expecting c
    | CheckerMode.Error c => I.expecting c

/-- `Flatten` from check.rs: a composed vector of rules. -/
structure Flatten (α : Type) where
  rules : List α

/-- Tail of itertools' `all_equal` over already-produced first element `x`:
stops at the first mismatch (later elements are then never evaluated), and
`none` if an element's `expecting` panics before a mismatch is found. -/
def allEqualFrom {β : Type} [DecidableEq β] (x : β) : List (Option β) → Option Bool
  | [] => some true
  | none :: _ => none
  | some y :: rest => if x = y then allEqualFrom x rest else some false

/-- itertools' `all_equal` over a lazily evaluated iterator whose items may
panic (`none`); vacuously true on the empty iterator. -/
def allEqualChecked {β : Type} [DecidableEq β] : List (Option β) → Option Bool
  | [] => some true
  | none :: _ => none
  | some x :: rest => allEqualFrom x rest

/-- `Flatten::new`: collect the rules, fail with `FlattenError::InvalidKind`
unless all `expecting()` signatures are equal. -/
def Flatten.new {α : Type} (I : CheckerImpl α) (l : List α) :
    Option (Except FlattenError (Flatten α)) :=
  match allEqualChecked (l.map I.expecting) with
  | none => none
  | some true => some (Except.ok (Flatten.mk l))
  | some false => some (Except.error FlattenError.InvalidKind)

/-- `IntoFlat::into_flat` simply calls `Flatten::new`. -/
def into_flat {α : Type} (I : CheckerImpl α) (l : List α) :
    Option (Except FlattenError (Flatten α)) :=
  Flatten.new I l

/-- `.map(|x| x.check(value)).collect::<Result<Vec<Notice>, CheckError>>()`:
sequential evaluation, short-circuiting at the first `Err` (and at the first
panic). -/
def collectResults {α : Type} (I : CheckerImpl α) : List α → Value →
    Option (Except CheckError (List Notice))
  | [], _ => some (Except.ok [])
  | x :: xs, v =>
    match I.check x v with
    | none => none
    | some (Except.error e) => some (Except.error e)
    | some (Except.ok n) =>
      match collectResults I xs v with
      | none => none
      | some (Except.error e) => some (Except.error e)
      | some (Except.ok ns) => some (Except.ok (n :: ns))

/-- The `for n in res { ... }` loop of `Flatten::check`: first verdict that
is not `Clear`, else `Clear`. -/
def firstNonClear : List Notice → Notice
  | [] => Notice.Clear
  | Notice.Clear :: rest => firstNonClear rest
  | Notice.Attention msg :: _ => Notice.Attention msg
  | Notice.Error msg :: _ => Notice.Error msg

/-- `impl Checker for Flatten<T>`'s `check`: collect all member verdicts,
sort ascending by the `Ord for Notice` order (Rust's `Vec::sort` is a stable
ascending sort; `List.insertionSort` is the same function on lists), reverse,
and return the first non-`Clear` verdict. -/
def Flatten.check {α : Type} (I : CheckerImpl α) (f : Flatten α) (v : Value) :
    Option (Except CheckError Notice) :=
  match collectResults I f.rules v with
  | none => none
  | some (Except.error e) => some (Except.error e)
  | some (Except.ok res) =>
    some (Except.ok (firstNonClear (List.insertionSort Notice.le res).reverse))

/-- `impl Checker for Flatten<T>`'s `expecting`:
`self.0.first().unwrap().expecting()` — panics (`none`) on an empty vector. -/
def Flatten.expecting {α : Type} (I : CheckerImpl α) (f : Flatten α) :
    Option (List ValueKind) :=
  match f.rules with
  | [] => none
  | x :: _ => I.expecting x

/-- `Checkers` from check.rs: the built-in rule vocabulary.  The compiled
`regex::Regex` is abstracted as its matching function. -/
inductive Checkers where
  | Any
  | Exact (v : String) (msg : String)
  | Regex (pattern : String → Bool) (msg : String)
  | Between (lo : ℚ) (hi : ℚ) (msg : String)
  | Custom (inner : DynChecker)

/-- `impl Checker for Checkers`, `check` arm for arm.  In the `Between` arm
the source unwraps the `f64` conversion, so a failing parse is a panic
(`none`); it is only reached under the `Number` tag. -/
def Checkers.check : Checkers → Value → Option (Except CheckError Notice)
  | Checkers.Any, _ => some (Except.ok Notice.Clear)
  | Checkers.Exact v msg, value =>
    some (Except.ok (if v = value.to_string then Notice.Clear else Notice.Attention msg))
  | Checkers.Regex pattern msg, value =>
    some (Except.ok (if pattern value.to_string then Notice.Clear else Notice.Attention msg))
  | Checkers.Between lo hi msg, value =>
    if value.is_kind_of ValueKind.Number then
      match value.try_to_f64 with
      | none => none
      | some q =>
        some (Except.ok (if lo ≤ q ∧ q ≤ hi then Notice.Clear else Notice.Attention msg))
    else some (Except.error CheckError.InvalidKind)
  | Checkers.Custom inner, value => inner.check value

/-- `impl Checker for Checkers`, `expecting` arm for arm. -/
def Checkers.expecting : Checkers → Option (List ValueKind)
  | Checkers.Any => some [ValueKind.Number, ValueKind.Literal]
  | Checkers.Exact _ _ => some [ValueKind.Number, ValueKind.Literal]
  | Checkers.Regex _ _ => some [ValueKind.Number, ValueKind.Literal]
  | Checkers.Between _ _ _ => some [ValueKind.Number]
  | Checkers.Custom inner => inner.expecting

/-- The `Checker` dictionary for `Checkers`. -/
def CheckersImpl : CheckerImpl Checkers where
  check := Checkers.check
  expecting := Checkers.expecting

/-! ## src/commit.rs -/

/-- `Commit` from commit.rs. -/
structure Commit where
  key : String
  value : Value
  notice : Notice
deriving DecidableEq, Repr

/-- `HashMap::get` semantics on the association-list model of
`HashMap<String, Flatten<T>>`: the entry stored under `k`, if any. -/
def mapGet {β : Type} (m : List (String × β)) (k : String) : Option β :=
  (m.find? (fun p => p.1 == k)).map (fun p => p.2)

/-- `HashMap::insert` semantics: the new binding replaces any previous
binding of the same key. -/
def mapInsert {β : Type} (m : List (String × β)) (k : String) (b : β) :
    List (String × β) :=
  (k, b) :: m.filter (fun p => !(p.1 == k))

/-- `CheckList::commit` for `HashMap<String, Flatten<T>>`: unknown key gives
`Ok(None)`; otherwise the field's `Flatten` is evaluated, `Err` propagates,
and a `Commit` is produced. -/
def commit {α : Type} (I : CheckerImpl α) (m : List (String × Flatten α))
    (key : String) (v : Value) : Option (Except CheckError (Option Commit)) :=
  match mapGet m key with
  | none => some (Except.ok none)
  | some f =>
    match Flatten.check I f v with
    | none => none
    | some (Except.error e) => some (Except.error e)
    | some (Except.ok n) => some (Except.ok (some (Commit.mk key v n)))

/-- itertools' `group_by` keyed on the pair's first component: maximal runs
of adjacent pairs with equal keys, each run keeping its order. -/
def groupRuns {α : Type} : List (String × α) → List (String × List α)
  | [] => []
  | (k, a) :: rest =>
    match groupRuns rest with
    | [] => [(k, [a])]
    | (k2, as2) :: gs =>
      if k = k2 then (k, a :: as2) :: gs else (k, [a]) :: (k2, as2) :: gs

/-- The `for (k, v) in ... group_by` loop of `into_checklist`: build each
run's `Flatten` (the `?` propagates `FlattenError`) and insert it under the
run's key. -/
def buildChecklist {α : Type} (I : CheckerImpl α) :
    List (String × List α) → List (String × Flatten α) →
    Option (Except FlattenError (List (String × Flatten α)))
  | [], m => some (Except.ok m)
  | (k, rs) :: gs, m =>
    match Flatten.new I rs with
    | none => none
    | some (Except.error e) => some (Except.error e)
    | some (Except.ok f) => buildChecklist I gs (mapInsert m k f)

/-- `IntoCheckList::into_checklist` for `Vec<(String, T)>`: group adjacent
equal-key pairs and fold the builds into an initially empty map. -/
def into_checklist {α : Type} (I : CheckerImpl α) (l : List (String × α)) :
    Option (Except FlattenError (List (String × Flatten α))) :=
  buildChecklist I (groupRuns l) []

/-- `CheckList::items`: every registered field paired with its composed
signature (which panics, `none`, on a zero-member `Flatten`). -/
def items {α : Type} (I : CheckerImpl α) (m : List (String × Flatten α)) :
    List (String × Option (List ValueKind)) :=
  m.map (fun p => (p.1, Flatten.expecting I p.2))

/-! ## Helper lemmas -/

theorem Notice.le_refl (a : Notice) : Notice.le a a := by
  rw [Notice.le_iff_severity]

theorem Notice.eq_clear_of_le_clear {a : Notice} (h : Notice.le a Notice.Clear) :
    a = Notice.Clear := by
  cases a with
  | Clear => rfl
  | Attention msg => rw [Notice.le_iff_severity] at h; simp [Notice.severity] at h
  | Error msg => rw [Notice.le_iff_severity] at h; simp [Notice.severity] at h

theorem firstNonClear_of_all_clear :
    ∀ {l : List Notice}, (∀ n ∈ l, n = Notice.Clear) → firstNonClear l = Notice.Clear
  | [], _ => rfl
  | n :: rest, h => by
    have hn := h n (List.mem_cons_self n rest)
    subst hn
    show firstNonClear rest = Notice.Clear
    exact firstNonClear_of_all_clear (fun m hm => h m (List.mem_cons_of_mem _ hm))

theorem firstNonClear_sorted_desc (ns : List Notice) (hne : ns ≠ []) :
    firstNonClear (List.insertionSort Notice.le ns).reverse ∈ ns ∧
    ∀ n ∈ ns, Notice.le n (firstNonClear (List.insertionSort Notice.le ns).reverse) := by
  have hperm : (List.insertionSort Notice.le ns).Perm ns := List.perm_insertionSort _ _
  have hsorted : List.Sorted Notice.le (List.insertionSort Notice.le ns) :=
    List.sorted_insertionSort _ _
  have hdesc : (List.insertionSort Notice.le ns).reverse.Pairwise
      (fun a b => Notice.le b a) := List.pairwise_reverse.mpr hsorted
  have hmem : ∀ n, n ∈ (List.insertionSort Notice.le ns).reverse ↔ n ∈ ns := by
    intro n
    rw [List.mem_reverse]
    exact hperm.mem_iff
  cases hrev : (List.insertionSort Notice.le ns).reverse with
  | nil =>
    exfalso
    have := congrArg List.length hrev
    simp [hperm.length_eq] at this
    exact hne this
  | cons h0 t =>
    rw [hrev] at hdesc hmem
    have hle_all : ∀ n ∈ ns, Notice.le n h0 := by
      intro n hn
      rcases List.mem_cons.mp ((hmem n).mpr hn) with h | h
      · exact h ▸ Notice.le_refl h0
      · exact (List.pairwise_cons.mp hdesc).1 n h
    have hfirst : firstNonClear (h0 :: t) = h0 := by
      cases h0 with
      | Clear =>
        show firstNonClear t = Notice.Clear
        apply firstNonClear_of_all_clear
        intro n hn
        exact Notice.eq_clear_of_le_clear ((List.pairwise_cons.mp hdesc).1 n hn)
      | Attention msg => rfl
      | Error msg => rfl
    rw [hfirst]
    exact ⟨(hmem h0).mp (List.mem_cons_self h0 t), fun n hn => hle_all n hn⟩

theorem collectResults_ok_length {α : Type} (I : CheckerImpl α) :
    ∀ (l : List α) (v : Value) (ns : List Notice),
      collectResults I l v = some (Except.ok ns) → ns.length = l.length
  | [], _, ns, h => by
    simp [collectResults] at h
    simp [← h]
  | x :: xs, v, ns, h => by
    unfold collectResults at h
    cases hx : I.check x v with
    | none => rw [hx] at h; exact absurd h (by simp)
    | some r =>
      rw [hx] at h
      cases r with
      | error e => exact absurd h (by simp)
      | ok n =>
        cases hrec : collectResults I xs v with
        | none => rw [hrec] at h; exact absurd h (by simp)
        | some rr =>
          rw [hrec] at h
          cases rr with
          | error e => exact absurd h (by simp)
          | ok ns2 =>
            simp at h
            rw [← h]
            simp [collectResults_ok_length I xs v ns2 hrec]

/-! ## Claims -/

/-- C4: the comparison on `Notice` is total, reflexive and transitive;
`Clear` is the unique minimum; two `Attention` verdicts compare order-equal
regardless of message, likewise two `Error` verdicts. -/
theorem notice_order_total_refl_trans_clear_min :
    (∀ a b : Notice, Notice.le a b ∨ Notice.le b a) ∧
    (∀ a : Notice, Notice.cmp a a = Ordering.eq) ∧
    (∀ a b c : Notice, Notice.le a b → Notice.le b c → Notice.le a c) ∧
    (∀ a : Notice, Notice.le Notice.Clear a) ∧
    (∀ a : Notice, Notice.le a Notice.Clear → a = Notice.Clear) ∧
    (∀ m1 m2 : String, Notice.cmp (Notice.Attention m1) (Notice.Attention m2) = Ordering.eq) ∧
    (∀ m1 m2 : String, Notice.cmp (Notice.Error m1) (Notice.Error m2) = Ordering.eq) := by
  refine ⟨?_, ?_, ?_, ?_, ?_, ?_, ?_⟩
  · intro a b
    rw [Notice.le_iff_severity, Notice.le_iff_severity]
    omega
  · intro a
    cases a <;> rfl
  · intro a b c hab hbc
    rw [Notice.le_iff_severity] at *
    omega
  · intro a
    rw [Notice.le_iff_severity]
    exact Nat.zero_le _
  · intro a
    exact Notice.eq_clear_of_le_clear
  · intro m1 m2
    rfl
  · intro m1 m2
    rfl

/-- Witness for C4: transitivity applied at concrete verdicts. -/
theorem notice_order_witness :
    Notice.le Notice.Clear (Notice.Error "b") :=
  notice_order_total_refl_trans_clear_min.2.2.1 Notice.Clear (Notice.Attention "a")
    (Notice.Error "b") (by decide) (by decide)

/-- C3: on a non-empty `Flatten` whose members all return `Ok` verdicts,
`check` returns `Ok` of a verdict that is one of the members' verdicts and
whose severity (Clear < Attention < Error) is the maximum of the members'
severities; if every member is `Clear` the result is `Clear`. -/
theorem flatten_check_max_severity {α : Type} (I : CheckerImpl α) (f : Flatten α)
    (v : Value) (ns : List Notice)
    (hne : f.rules ≠ [])
    (hok : collectResults I f.rules v = some (Except.ok ns)) :
    ∃ r : Notice,
      Flatten.check I f v = some (Except.ok r) ∧
      r ∈ ns ∧
      (∀ n ∈ ns, n.severity ≤ r.severity) ∧
      ((∀ n ∈ ns, n = Notice.Clear) → r = Notice.Clear) := by
  have hnsne : ns ≠ [] := by
    intro h
    subst h
    have hl := collectResults_ok_length I f.rules v [] hok
    simp at hl
    exact hne (List.eq_nil_of_length_eq_zero hl.symm)
  obtain ⟨hmem, hmax⟩ := firstNonClear_sorted_desc ns hnsne
  refine ⟨firstNonClear (List.insertionSort Notice.le ns).reverse, ?_, hmem, ?_, ?_⟩
  · unfold Flatten.check
    rw [hok]
  · intro n hn
    exact (Notice.le_iff_severity _ _).mp (hmax n hn)
  · intro hall
    exact hall _ hmem

/-- Witness for C3: a two-member composer over `Checkers`, one member
`Clear`, the other `Attention`. -/
theorem flatten_check_max_severity_witness :
    ∃ r : Notice,
      Flatten.check CheckersImpl
        (Flatten.mk [Checkers.Exact "a" "m1", Checkers.Exact "b" "m2"])
        (Value.ofStr "a") = some (Except.ok r) ∧
      r ∈ [Notice.Clear, Notice.Attention "m2"] ∧
      (∀ n ∈ [Notice.Clear, Notice.Attention "m2"], n.severity ≤ r.severity) ∧
      ((∀ n ∈ [Notice.Clear, Notice.Attention "m2"], n = Notice.Clear) →
        r = Notice.Clear) :=
  flatten_check_max_severity CheckersImpl
    (Flatten.mk [Checkers.Exact "a" "m1", Checkers.Exact "b" "m2"])
    (Value.ofStr "a") [Notice.Clear, Notice.Attention "m2"]
    (List.cons_ne_nil _ _) rfl

/-- Spec-side description of the Error-mode remapping (spec §4.3): Attention
escalates to Error with the same message, Clear and Error pass through. -/
def Notice.escalate : Notice → Notice
  | Notice.Attention msg => Notice.Error msg
  | n => n

/-- C5: wrapping any base rule in `CheckerMode::Error` escalates a base
`Attention(m)` outcome to `Error(m)` and passes `Clear` and `Error(m)`
through (captured by `Notice.escalate` mapped over the base outcome);
`CheckerMode::Attention` is the identity on the base outcome; in both modes
`expecting` equals the base rule's `expecting`. -/
theorem checker_mode_behavior {α : Type} (I : CheckerImpl α) (c : α) (v : Value) :
    (CheckerModeImpl I).check (CheckerMode.Error c) v
      = (I.check c v).map (Except.map Notice.escalate) ∧
    (CheckerModeImpl I).check (CheckerMode.Attention c) v = I.check c v ∧
    (CheckerModeImpl I).expecting (CheckerMode.Error c) = I.expecting c ∧
    (CheckerModeImpl I).expecting (CheckerMode.Attention c) = I.expecting c := by
  refine ⟨?_, ?_, rfl, rfl⟩
  · cases hc : I.check c v with
    | none => simp [CheckerModeImpl, hc]
    | some r =>
      cases r with
      | error e => simp [CheckerModeImpl, hc, Except.map]
      | ok n => cases n <;> simp [CheckerModeImpl, hc, Except.map, Notice.escalate]
  · cases hc : I.check c v with
    | none => simp [CheckerModeImpl, hc]
    | some r =>
      cases r with
      | error e => simp [CheckerModeImpl, hc, Except.map]
      | ok n => cases n <;> simp [CheckerModeImpl, hc, Except.map]

/-- C6: the `Between` rule returns `InvalidKind` on any value not tagged
`Number`, whatever its text; on a `Number`-tagged value whose text denotes
the number `q`, it returns `Clear` exactly when `lo ≤ q ≤ hi` (both bounds
inclusive) and `Attention(msg)` otherwise. -/
theorem between_check_behavior (lo hi : ℚ) (msg : String) (v : Value) :
    (v.kind ≠ ValueKind.Number →
      Checkers.check (Checkers.Between lo hi msg) v
        = some (Except.error CheckError.InvalidKind)) ∧
    (v.kind = ValueKind.Number → ∀ q : ℚ, parseDecimal v.inner = some q →
      (Checkers.check (Checkers.Between lo hi msg) v = some (Except.ok Notice.Clear)
        ↔ lo ≤ q ∧ q ≤ hi) ∧
      (¬(lo ≤ q ∧ q ≤ hi) →
        Checkers.check (Checkers.Between lo hi msg) v
          = some (Except.ok (Notice.Attention msg)))) := by
  constructor
  · intro hk
    have hkb : v.is_kind_of ValueKind.Number = false := by
      simp [Value.is_kind_of]
      exact hk
    simp [Checkers.check, hkb]
  · intro hk q hq
    have hkb : v.is_kind_of ValueKind.Number = true := by
      simp [Value.is_kind_of, hk]
    constructor
    · simp only [Checkers.check, hkb, if_true, Value.try_to_f64, hq]
      by_cases hin : lo ≤ q ∧ q ≤ hi
      · simp [hin]
      · simp [hin]
    · intro hin
      simp only [Checkers.check, hkb, if_true, Value.try_to_f64, hq]
      simp [hin]

/-- Witness for C6: a `Literal` value is rejected with `InvalidKind`; the
number 3 lies inside `[0, 10]`. -/
theorem between_check_behavior_witness :
    Checkers.check (Checkers.Between 0 10 "m") (Value.ofStr "x")
      = some (Except.error CheckError.InvalidKind) ∧
    Checkers.check (Checkers.Between 0 10 "m") (Value.ofU32 3)
      = some (Except.ok Notice.Clear) :=
  ⟨(between_check_behavior 0 10 "m" (Value.ofStr "x")).1 (by decide),
   ((between_check_behavior 0 10 "m" (Value.ofU32 3)).2 rfl 3 (by decide)).1.mpr
     (by norm_num)⟩

/-- C7: `commit` with a key absent from the registry returns `Ok(None)` —
the explicit "unknown field" absence signal — never an error and never a
`Commit`. -/
theorem commit_unknown_field {α : Type} (I : CheckerImpl α)
    (m : List (String × Flatten α)) (key : String) (v : Value)
    (h : mapGet m key = none) :
    commit I m key v = some (Except.ok none) := by
  unfold commit
  rw [h]

/-- Witness for C7: a registry with only field "A", queried at "Z". -/
theorem commit_unknown_field_witness :
    commit CheckersImpl [("A", Flatten.mk [Checkers.Any])] "Z" (Value.ofU32 1)
      = some (Except.ok none) :=
  commit_unknown_field CheckersImpl [("A", Flatten.mk [Checkers.Any])] "Z"
    (Value.ofU32 1) rfl

/-- C2 (failing input for the claimed invariant): `Flatten::new` on the
empty rule sequence succeeds — `all_equal` is vacuously true — so a
zero-member `Flatten` is obtained; construction does not reject it. -/
theorem flatten_new_empty_accepted {α : Type} (I : CheckerImpl α) :
    Flatten.new I ([] : List α) = some (Except.ok (Flatten.mk [])) := rfl

/-- C9: `into_flat` on an empty iterator succeeds with a zero-member
composer; on that composer `check` returns `Ok(Clear)` for every value,
while `expecting` reaches the `first().unwrap()` panic (modelled `none`). -/
theorem into_flat_empty_behavior {α : Type} (I : CheckerImpl α) (v : Value) :
    into_flat I ([] : List α) = some (Except.ok (Flatten.mk [])) ∧
    Flatten.check I (Flatten.mk []) v = some (Except.ok Notice.Clear) ∧
    Flatten.expecting I (Flatten.mk []) = none :=
  ⟨rfl, rfl, rfl⟩

theorem allEqualFrom_isSome {β : Type} [DecidableEq β] (x : β) :
    ∀ os : List (Option β), (∀ o ∈ os, o.isSome) → (allEqualFrom x os).isSome := by
  intro os
  induction os with
  | nil => intro _; rfl
  | cons o rest ih =>
    intro h
    cases o with
    | none =>
      have := h none (List.mem_cons_self _ _)
      simp at this
    | some y =>
      unfold allEqualFrom
      by_cases hxy : x = y
      · rw [if_pos hxy]
        exact ih (fun o ho => h o (List.mem_cons_of_mem _ ho))
      · rw [if_neg hxy]
        rfl

theorem allEqualFrom_true {β : Type} [DecidableEq β] (x : β) :
    ∀ os : List (Option β), allEqualFrom x os = some true →
      ∀ o ∈ os, o = some x := by
  intro os
  induction os with
  | nil =>
    intro _ o ho
    simp at ho
  | cons o rest ih =>
    intro h o2 ho2
    cases o with
    | none => simp [allEqualFrom] at h
    | some y =>
      unfold allEqualFrom at h
      by_cases hxy : x = y
      · rw [if_pos hxy] at h
        rcases List.mem_cons.mp ho2 with h2 | h2
        · rw [h2, hxy]
        · exact ih h o2 h2
      · rw [if_neg hxy] at h
        simp at h

theorem allEqualChecked_mismatch {β : Type} [DecidableEq β]
    (os : List (Option β)) (hdef : ∀ o ∈ os, o.isSome)
    (x y : β) (hx : some x ∈ os) (hy : some y ∈ os) (hne : x ≠ y) :
    allEqualChecked os = some false := by
  cases os with
  | nil => simp at hx
  | cons o rest =>
    cases o with
    | none =>
      have := hdef none (List.mem_cons_self _ _)
      simp at this
    | some z =>
      show allEqualFrom z rest = some false
      have hsome : (allEqualFrom z rest).isSome :=
        allEqualFrom_isSome z rest (fun o ho => hdef o (List.mem_cons_of_mem _ ho))
      cases hb : allEqualFrom z rest with
      | none =>
        rw [hb] at hsome
        simp at hsome
      | some b =>
        cases b with
        | true =>
          exfalso
          have hall := allEqualFrom_true z rest hb
          have hxz : x = z := by
            rcases List.mem_cons.mp hx with h | h
            · exact Option.some.inj h
            · exact Option.some.inj (hall _ h)
          have hyz : y = z := by
            rcases List.mem_cons.mp hy with h | h
            · exact Option.some.inj h
            · exact Option.some.inj (hall _ h)
          exact hne (hxz.trans hyz.symm)
        | false => rfl

/-- C8: whenever two rules in the sequence report differing `expecting()`
signatures (all rules' `expecting` being defined), `Flatten::new` fails with
the signature-mismatch error `FlattenError::InvalidKind`, whatever the
sequence's length or order; and evaluation (`Flatten::check`) can only ever
fail with the evaluation-time `CheckError::InvalidKind` — the construction
error has no evaluation-time counterpart. -/
theorem flatten_new_signature_mismatch {α : Type} (I : CheckerImpl α)
    (l : List α) (x y : α) (hx : x ∈ l) (hy : y ∈ l)
    (hne : I.expecting x ≠ I.expecting y)
    (hdef : ∀ z ∈ l, (I.expecting z).isSome) :
    Flatten.new I l = some (Except.error FlattenError.InvalidKind) ∧
    ∀ (f : Flatten α) (v : Value) (e : CheckError),
      Flatten.check I f v = some (Except.error e) → e = CheckError.InvalidKind := by
  constructor
  · obtain ⟨ex, hex⟩ := Option.isSome_iff_exists.mp (hdef x hx)
    obtain ⟨ey, hey⟩ := Option.isSome_iff_exists.mp (hdef y hy)
    have hxy : ex ≠ ey := by
      intro h
      exact hne (by rw [hex, hey, h])
    have hfalse : allEqualChecked (l.map I.expecting) = some false := by
      apply allEqualChecked_mismatch (l.map I.expecting) ?_ ex ey ?_ ?_ hxy
      · intro o ho
        obtain ⟨z, hz, rfl⟩ := List.mem_map.mp ho
        exact hdef z hz
      · exact List.mem_map.mpr ⟨x, hx, hex⟩
      · exact List.mem_map.mpr ⟨y, hy, hey⟩
    unfold Flatten.new
    rw [hfalse]
  · intro f v e h
    cases e
    rfl

/-- Witness for C8: an `Exact` rule (signature {Number, Literal}) and a
`Between` rule (signature {Number}) in one sequence. -/
theorem flatten_new_signature_mismatch_witness :
    Flatten.new CheckersImpl [Checkers.Exact "a" "m", Checkers.Between 0 1 "m"]
      = some (Except.error FlattenError.InvalidKind) :=
  (flatten_new_signature_mismatch CheckersImpl
    [Checkers.Exact "a" "m", Checkers.Between 0 1 "m"]
    (Checkers.Exact "a" "m") (Checkers.Between 0 1 "m")
    (List.mem_cons_self _ _)
    (List.mem_cons_of_mem _ (List.mem_cons_self _ _))
    (by decide)
    (by
      intro z hz
      rcases List.mem_cons.mp hz with h | h
      · rw [h]; rfl
      · rcases List.mem_cons.mp h with h2 | h2
        · rw [h2]; rfl
        · simp at h2)).1

theorem isDigit_ofNat_digit {d : Nat} (h : d < 10) :
    (Char.ofNat (48 + d)).isDigit = true := by
  interval_cases d <;> decide

theorem natDigitsAux_digits :
    ∀ (fuel n : Nat), n < fuel →
      (natDigitsAux fuel n).all Char.isDigit = true ∧ natDigitsAux fuel n ≠ [] := by
  intro fuel
  induction fuel with
  | zero =>
    intro n hn
    omega
  | succ f ih =>
    intro n hn
    unfold natDigitsAux
    by_cases h10 : n < 10
    · rw [if_pos h10]
      exact ⟨by simp [isDigit_ofNat_digit h10], by simp⟩
    · rw [if_neg h10]
      have hrec := ih (n / 10) (by omega)
      constructor
      · rw [List.all_append]
        simp [hrec.1, isDigit_ofNat_digit (Nat.mod_lt n (by omega))]
      · simp

theorem natDigits_digits (n : Nat) :
    (natDigits n).all Char.isDigit = true ∧ natDigits n ≠ [] :=
  natDigitsAux_digits (n + 1) n (Nat.lt_succ_self n)

theorem takeWhile_of_all {α : Type} {p : α → Bool} :
    ∀ l : List α, l.all p = true → l.takeWhile p = l := by
  intro l
  induction l with
  | nil => intro _; rfl
  | cons x xs ih =>
    intro h
    rw [List.all_cons] at h
    have hx := (Bool.and_eq_true _ _).mp h
    simp [List.takeWhile_cons, hx.1, ih hx.2]

theorem dropWhile_of_all {α : Type} {p : α → Bool} :
    ∀ l : List α, l.all p = true → l.dropWhile p = [] := by
  intro l
  induction l with
  | nil => intro _; rfl
  | cons x xs ih =>
    intro h
    rw [List.all_cons] at h
    have hx := (Bool.and_eq_true _ _).mp h
    simp [List.dropWhile_cons, hx.1, ih hx.2]

theorem splitSign_of_digit {c : Char} (r : List Char) (h : c.isDigit = true) :
    splitSign (c :: r) = (false, c :: r) := by
  have h1 : c ≠ '-' := by
    intro he
    rw [he] at h
    simp [Char.isDigit] at h
  have h2 : c ≠ '+' := by
    intro he
    rw [he] at h
    simp [Char.isDigit] at h
  simp [splitSign, h1, h2]

theorem parseDecimal_digits (l : List Char)
    (hall : l.all Char.isDigit = true) (hne : l ≠ []) :
    parseDecimal (String.mk l) = some (digitsToNat l : ℚ) := by
  cases l with
  | nil => exact absurd rfl hne
  | cons c r =>
    have hc : c.isDigit = true := by
      rw [List.all_cons] at hall
      exact ((Bool.and_eq_true _ _).mp hall).1
    unfold parseDecimal
    show (let p := splitSign (c :: r); _ : Option ℚ) = _
    rw [splitSign_of_digit r hc]
    simp only [takeWhile_of_all _ hall, dropWhile_of_all _ hall]
    simp

theorem parseDecimal_neg_digits (l : List Char)
    (hall : l.all Char.isDigit = true) (hne : l ≠ []) :
    parseDecimal (String.mk ('-' :: l)) = some (-(digitsToNat l : ℚ)) := by
  cases l with
  | nil => exact absurd rfl hne
  | cons c r =>
    unfold parseDecimal
    show (let p := splitSign ('-' :: c :: r); _ : Option ℚ) = _
    have hsplit : splitSign ('-' :: c :: r) = (true, c :: r) := by
      simp [splitSign]
    rw [hsplit]
    simp only [takeWhile_of_all _ hall, dropWhile_of_all _ hall]
    simp

/-- C10: every `Value` built by the public constructors that carries the
`Number` tag has text that parses as a number, so the `unwrap` in the
`Between` arm — reached only under the `Number` tag — never panics on such
values (`check` is never `none`). -/
theorem reachable_number_parses (v : Value) (hr : v.Reachable)
    (hk : v.kind = ValueKind.Number) :
    (parseDecimal v.inner).isSome = true ∧
    ∀ (lo hi : ℚ) (msg : String),
      Checkers.check (Checkers.Between lo hi msg) v ≠ none := by
  have hparse : (parseDecimal v.inner).isSome = true := by
    cases hr with
    | ofU32 n =>
      have hd := natDigits_digits n
      rw [show (Value.ofU32 n).inner = String.mk (natDigits n) from rfl]
      rw [parseDecimal_digits (natDigits n) hd.1 hd.2]
      rfl
    | ofI32 n =>
      by_cases hneg : n < 0
      · have hd := natDigits_digits n.natAbs
        rw [show (Value.ofI32 n).inner
            = if n < 0 then String.mk ('-' :: natDigits n.natAbs)
              else String.mk (natDigits n.toNat) from rfl]
        rw [if_pos hneg, parseDecimal_neg_digits (natDigits n.natAbs) hd.1 hd.2]
        rfl
      · have hd := natDigits_digits n.toNat
        rw [show (Value.ofI32 n).inner
            = if n < 0 then String.mk ('-' :: natDigits n.natAbs)
              else String.mk (natDigits n.toNat) from rfl]
        rw [if_neg hneg, parseDecimal_digits (natDigits n.toNat) hd.1 hd.2]
        rfl
    | ofStr s =>
      exact absurd hk (by simp [Value.ofStr])
  refine ⟨hparse, ?_⟩
  intro lo hi msg
  obtain ⟨q, hq⟩ := Option.isSome_iff_exists.mp hparse
  have hkb : v.is_kind_of ValueKind.Number = true := by
    simp [Value.is_kind_of, hk]
  simp [Checkers.check, hkb, Value.try_to_f64, hq]

/-- Witness for C10: the value built from the `u32` 7. -/
theorem reachable_number_parses_witness :
    (parseDecimal (Value.ofU32 7).inner).isSome = true ∧
    ∀ (lo hi : ℚ) (msg : String),
      Checkers.check (Checkers.Between lo hi msg) (Value.ofU32 7) ≠ none :=
  reachable_number_parses (Value.ofU32 7) (Value.Reachable.ofU32 7) rfl

theorem mapGet_filter_ne {β : Type} (k k2 : String) (hne : k2 ≠ k) :
    ∀ m : List (String × β),
      mapGet (m.filter (fun p => !(p.1 == k))) k2 = mapGet m k2 := by
  intro m
  induction m with
  | nil => rfl
  | cons p rest ih =>
    obtain ⟨k1, b⟩ := p
    rw [List.filter_cons]
    by_cases hk1 : k1 = k
    · have hcond : (!(((k1, b) : String × β).1 == k)) = false := by simp [hk1]
      rw [hcond, if_neg Bool.false_ne_true, ih]
      have hne2 : (k1 == k2) = false := by
        rw [beq_eq_false_iff_ne]
        intro he
        exact hne (he ▸ hk1)
      unfold mapGet
      simp [List.find?, hne2]
    · have hcond : (!(((k1, b) : String × β).1 == k)) = true := by simp [hk1]
      rw [hcond, if_pos rfl]
      unfold mapGet
      by_cases hk12 : k1 = k2
      · simp [List.find?, hk12]
      · have hne2 : (k1 == k2) = false := by simp [hk12]
        simp only [List.find?, hne2]
        exact ih

theorem mapGet_mapInsert {β : Type} (m : List (String × β)) (k k2 : String) (b : β) :
    mapGet (mapInsert m k b) k2 = if k2 = k then some b else mapGet m k2 := by
  unfold mapInsert
  by_cases hk : k2 = k
  · subst hk
    simp [mapGet, List.find?]
  · have hne2 : (k == k2) = false := by
      rw [beq_eq_false_iff_ne]
      intro he
      exact hk he.symm
    rw [if_neg hk]
    unfold mapGet
    simp only [List.find?, hne2]
    exact mapGet_filter_ne k k2 hk m

theorem flatten_new_ok {α : Type} (I : CheckerImpl α) (rs : List α) (f : Flatten α)
    (h : Flatten.new I rs = some (Except.ok f)) : f = Flatten.mk rs := by
  unfold Flatten.new at h
  cases hq : allEqualChecked (rs.map I.expecting) with
  | none =>
    rw [hq] at h
    simp at h
  | some b =>
    rw [hq] at h
    cases b with
    | true => exact (Except.ok.inj (Option.some.inj h)).symm
    | false => simp at h

theorem buildChecklist_mapGet {α : Type} (I : CheckerImpl α) :
    ∀ (gs : List (String × List α)) (m0 m : List (String × Flatten α)),
      buildChecklist I gs m0 = some (Except.ok m) →
      ∀ k : String,
        mapGet m k
          = match gs.reverse.find? (fun g => g.1 == k) with
            | some g => some (Flatten.mk g.2)
            | none => mapGet m0 k := by
  intro gs
  induction gs with
  | nil =>
    intro m0 m h k
    have hm : m0 = m := Except.ok.inj (Option.some.inj h)
    subst hm
    rfl
  | cons g rest ih =>
    intro m0 m h k
    obtain ⟨k1, rs⟩ := g
    unfold buildChecklist at h
    cases hn : Flatten.new I rs with
    | none =>
      rw [hn] at h
      simp at h
    | some r =>
      rw [hn] at h
      cases r with
      | error e => simp at h
      | ok f =>
        have hf : f = Flatten.mk rs := flatten_new_ok I rs f hn
        subst hf
        have hrec := ih (mapInsert m0 k1 (Flatten.mk rs)) m h k
        rw [List.reverse_cons]
        cases hfind : rest.reverse.find? (fun g => g.1 == k) with
        | some g2 =>
          rw [hfind] at hrec
          rw [show (rest.reverse ++ [((k1, rs) : String × List α)]).find?
              (fun g => g.1 == k) = some g2 from by
            rw [List.find?_append, hfind]
            rfl]
          exact hrec
        | none =>
          rw [hfind] at hrec
          have hrec2 : mapGet m k = mapGet (mapInsert m0 k1 (Flatten.mk rs)) k := hrec
          rw [List.find?_append, hfind, Option.none_or]
          by_cases hk : k1 = k
          · subst hk
            rw [show List.find? (fun g => g.1 == k1) [((k1, rs) : String × List α)]
                = some (k1, rs) from by simp [List.find?]]
            show mapGet m k1 = some (Flatten.mk rs)
            rw [hrec2, mapGet_mapInsert, if_pos rfl]
          · have hne2 : (k1 == k) = false := by simp [hk]
            rw [show List.find? (fun g => g.1 == k) [((k1, rs) : String × List α)]
                = none from by simp [List.find?, hne2]]
            show mapGet m k = mapGet m0 k
            rw [hrec2, mapGet_mapInsert, if_neg (fun he => hk he.symm)]

theorem groupRuns_join {α : Type} :
    ∀ l : List (String × α),
      (groupRuns l).flatMap (fun g => g.2.map (fun a => (g.1, a))) = l := by
  intro l
  induction l with
  | nil => rfl
  | cons p rest ih =>
    obtain ⟨k, a⟩ := p
    unfold groupRuns
    cases hg : groupRuns rest with
    | nil =>
      rw [hg] at ih
      simp only [List.flatMap_nil] at ih
      show ([((k, [a]) : String × List α)]).flatMap
        (fun g => g.2.map (fun a => (g.1, a))) = (k, a) :: rest
      rw [← ih]
      rfl
    | cons g2 gs =>
      obtain ⟨k2, as2⟩ := g2
      rw [hg] at ih
      show ((if k = k2 then (k, a :: as2) :: gs else (k, [a]) :: (k2, as2) :: gs).flatMap
        (fun g => g.2.map (fun a => (g.1, a)))) = (k, a) :: rest
      by_cases hk : k = k2
      · subst hk
        rw [if_pos rfl]
        simp only [List.flatMap_cons, List.map_cons, List.cons_append] at ih ⊢
        rw [ih]
      · rw [if_neg hk]
        simp only [List.flatMap_cons, List.map_cons, List.map_nil, List.cons_append,
          List.nil_append] at ih ⊢
        rw [ih]

/-- C1 counterexample: with field "A" occurring at the non-adjacent
positions 0 and 2, `into_checklist` maps "A" to a Composer holding only the
last run's rule — not one Composer built from the whole "A" group. -/
theorem into_checklist_nonadjacent_overwrites :
    into_checklist CheckersImpl
      [("A", Checkers.Exact "x" "m1"), ("B", Checkers.Any), ("A", Checkers.Exact "y" "m2")]
      = some (Except.ok
          [("A", Flatten.mk [Checkers.Exact "y" "m2"]), ("B", Flatten.mk [Checkers.Any])]) ∧
    mapGet [("A", Flatten.mk [Checkers.Exact "y" "m2"]), ("B", Flatten.mk [Checkers.Any])] "A"
      = some (Flatten.mk [Checkers.Exact "y" "m2"]) ∧
    some (Flatten.mk [Checkers.Exact "y" "m2"])
      ≠ some (Flatten.mk [Checkers.Exact "x" "m1", Checkers.Exact "y" "m2"]) := by
  refine ⟨rfl, rfl, ?_⟩
  intro h
  have h2 := Flatten.mk.inj (Option.some.inj h)
  simp at h2

/-- C1 amended: `into_checklist` groups only maximal runs of adjacent pairs
sharing a field name (itertools' `group_by`), preserving each run's order,
and builds one Composer per run; the final map sends each field name to the
Composer of its last run (`HashMap::insert` overwrites earlier runs), and
the runs concatenate back to the whole input in order. -/
theorem into_checklist_adjacent_runs {α : Type} (I : CheckerImpl α)
    (l : List (String × α)) (m : List (String × Flatten α))
    (h : into_checklist I l = some (Except.ok m)) :
    (∀ k : String,
      mapGet m k
        = match (groupRuns l).reverse.find? (fun g => g.1 == k) with
          | some g => some (Flatten.mk g.2)
          | none => none) ∧
    (groupRuns l).flatMap (fun g => g.2.map (fun a => (g.1, a))) = l := by
  refine ⟨?_, groupRuns_join l⟩
  intro k
  have hb := buildChecklist_mapGet I (groupRuns l) [] m h k
  rw [hb]
  cases (groupRuns l).reverse.find? (fun g => g.1 == k) with
  | some g => rfl
  | none => rfl

/-- Witness for the amended C1, at the counterexample input, queried at key
"A": the registry holds the last run's Composer. -/
theorem into_checklist_adjacent_runs_witness :
    mapGet [("A", Flatten.mk [Checkers.Exact "y" "m2"]), ("B", Flatten.mk [Checkers.Any])] "A"
      = match (groupRuns [("A", Checkers.Exact "x" "m1"), ("B", Checkers.Any),
          ("A", Checkers.Exact "y" "m2")]).reverse.find? (fun g => g.1 == "A") with
        | some g => some (Flatten.mk g.2)
        | none => none :=
  (into_checklist_adjacent_runs CheckersImpl
    [("A", Checkers.Exact "x" "m1"), ("B", Checkers.Any), ("A", Checkers.Exact "y" "m2")]
    [("A", Flatten.mk [Checkers.Exact "y" "m2"]), ("B", Flatten.mk [Checkers.Any])]
    rfl).1 "A"
